import Mathlib

/-! check_string: tail reader and threshold evaluator

A shallow embedding of `src/check_string.c`.

* A byte is a `Nat`; a file is the list of its bytes; `\n` is `10`, NUL is `0`.
* `unsigned int` arithmetic is arithmetic modulo `2 ^ 32`.
* The line table `char lines[max_lines][MAX_LINE_LENGTH]` is a list of
  `max_lines` slots of `MAX_LINE_LENGTH` bytes each.  A store through
  `lines[index]` with `index` outside the table is undefined behaviour in C:
  the embedding leaves the table as it is and records the index in the
  ghost field `stores`, so that the defect can be stated.  The table and the
  count that `get_last_lines` has in the embedding are those of the C function
  only when every index in `stores` is inside the table; `main` has a result
  only when every store and every load stayed inside the table.
* The table is a variable-length array on the stack of `main`, allocated
  before the arguments are validated (lines 76-79).  `main` is the function
  once that allocation has succeeded; `main_on_stack` is the whole function
  for a stack that has room for `stack` bytes of table.
* In the examples the bytes 97, 98, 99, 120 are the letters `a`, `b`, `c`,
  `x`; 69, 82, 82, 79, 82 spell `ERROR`; 32 is a blank, 49 the digit `1`,
  and the path 102 is `f`.
-/

namespace CheckString

/-! ## Constants (lines 7-13) -/

def OK : Nat := 0
def WARNING : Nat := 1
def CRITICAL : Nat := 2
def UNKNOWN : Nat := 3

def MAX_LINE_LENGTH : Nat := 300
def LINES_TO_CHECK_DEFAULT_VALUE : Nat := 30

/-- The line terminator byte. -/
def NL : Nat := 10

/-- Wrap a value to the range of `unsigned int`. -/
def u32 (x : Nat) : Nat := x % 2 ^ 32

/-- The value of `x - 1` in `unsigned int` arithmetic (`index--`, `max_lines - 1`). -/
def u32_pred (x : Nat) : Nat := (x + (2 ^ 32 - 1)) % 2 ^ 32

/-! ## Library routines used by the program -/

/-- The bytes of the C string that starts at the beginning of `mem`:
everything before the first NUL. -/
def cstr (mem : List Nat) : List Nat := mem.takeWhile (fun b => b != 0)

/-- The bytes `fgets` takes from the stream when it may take at most `n`:
it stops after a line terminator, at end of file, or after `n` bytes. -/
def fgets_bytes : Nat → List Nat → List Nat
  | 0, _ => []
  | _ + 1, [] => []
  | n + 1, b :: rest => if b = NL then [b] else b :: fgets_bytes n rest

/-- The call `fgets(buf, size, stream)`: the new contents of `buf`.  At end
of file nothing is read, `fgets` returns NULL and `buf` is unchanged; otherwise
the bytes read and a NUL overwrite the front of `buf`. -/
def fgets (buf : List Nat) (size : Nat) (stream : List Nat) : List Nat :=
  match stream with
  | [] => buf
  | _ :: _ =>
    let got := fgets_bytes (size - 1) stream
    got ++ 0 :: buf.drop (got.length + 1)

/-- The call `strstr(haystack, needle)` on the contents of two C strings:
the offset of the first occurrence of `needle`, `none` for NULL. -/
def strstr : List Nat → List Nat → Option Nat
  | [], needle => if needle = [] then some 0 else none
  | h :: hs, needle =>
    if needle.isPrefixOf (h :: hs) then some 0
    else (strstr hs needle).map (fun k => k + 1)

/-! ## The configuration (lines 18-43) -/

/-- The `struct arguments` of the program. -/
structure arguments where
  warning_threshold : Nat
  critical_threshold : Nat
  lines_to_check_default : Nat
  check_string : List Nat
  log_file : List Nat
  warning_set : Bool
  critical_set : Bool
  file_set : Bool
  string_set : Bool
  deriving DecidableEq

/-- The default values of the global `args`. -/
def args_default : arguments :=
  { warning_threshold := 0
    critical_threshold := 0
    lines_to_check_default := LINES_TO_CHECK_DEFAULT_VALUE
    check_string := []
    log_file := []
    warning_set := false
    critical_set := false
    file_set := false
    string_set := false }

/-! ## `contains_string` (lines 186-193) -/

/-- The function `contains_string`: `line` is the memory of a slot,
`check_string` the memory of `args.check_string`. -/
def contains_string (check_string line : List Nat) : Nat :=
  match strstr (cstr line) (cstr check_string) with
  | some _ => 1
  | none => 0

/-! ## `get_last_lines` (lines 196-232) -/

/-- The local variables of `get_last_lines` and the line table it fills.
`stores` is a ghost field: the slot indices through which bytes were stored,
oldest first. -/
structure TailState where
  line_count : Nat
  index : Nat
  lines : List (List Nat)
  stores : List Nat
  deriving DecidableEq

/-- The statements `fgets(lines[index--], MAX_LINE_LENGTH, file); line_count++;`
with the file positioned so that `stream` is what remains to be read.  When
`index` is outside the table the store is undefined in C: the table is left as
it is and the index is recorded in `stores`, and what the embedding computes
from there on is no longer what the C function does. -/
def read_line (s : TailState) (stream : List Nat) : TailState :=
  { line_count := u32 (s.line_count + 1)
    index := u32_pred s.index
    lines := s.lines.set s.index (fgets (s.lines.getD s.index []) MAX_LINE_LENGTH stream)
    stores := if stream = [] then s.stores else s.stores ++ [s.index] }

/-- The loop `while (pos > 0)` of lines 205-222, entered with the given `pos`:
the value of `pos` on leaving the loop, and the state. -/
def scan (file : List Nat) (max_lines : Nat) : Nat → TailState → Nat × TailState
  | 0, s => (0, s)
  | pos + 1, s =>
    if file.get? pos = some NL then
      if s.line_count < u32 max_lines then
        scan file max_lines pos (read_line s (file.drop (pos + 1)))
      else (pos, s)
    else scan file max_lines pos s

/-- The state in which `get_last_lines` starts (lines 198-200). -/
def tail_init (lines : List (List Nat)) (max_lines : Nat) : TailState :=
  { line_count := 0
    index := u32_pred max_lines
    lines := lines
    stores := [] }

/-- The function `get_last_lines` on a file with the given bytes and the
table `lines`: the final state, whose `line_count` is the value returned and
whose `lines` is the table it leaves. -/
def get_last_lines (file : List Nat) (lines : List (List Nat)) (max_lines : Nat) : TailState :=
  let r := scan file max_lines file.length (tail_init lines max_lines)
  if r.1 = 0 then read_line r.2 file else r.2

/-! ## `main` (lines 67-138) -/

/-- The table `lines` of `main` after the `memset` of line 79:
`lines_to_check` slots of `MAX_LINE_LENGTH` zero bytes. -/
def zero_table (lines_to_check : Nat) : List (List Nat) :=
  List.replicate lines_to_check (List.replicate MAX_LINE_LENGTH 0)

/-- The element `lines[i]` of the table, `none` outside it. -/
def lines_at (lines : List (List Nat)) (i : Int) : Option (List Nat) :=
  if 0 ≤ i then lines.get? i.toNat else none

/-- The loop of lines 112-118 with `k` iterations left, at index `i`, with
the given `error_count`. -/
def count_errors (check_string : List Nat) (lines : List (List Nat)) :
    Nat → Int → Nat → Option Nat
  | 0, _, error_count => some error_count
  | k + 1, i, error_count =>
    match lines_at lines i with
    | none => none
    | some line =>
      count_errors check_string lines k (i + 1) (error_count + contains_string check_string line)

/-- The status decided in lines 121-137. -/
def status (error_count warning_threshold critical_threshold : Nat) : Nat :=
  if error_count ≥ critical_threshold then CRITICAL
  else if error_count ≥ warning_threshold then WARNING
  else OK

/-- What a run of `main` leaves behind: the exit code and the final
`error_count`. -/
structure Run where
  exit_code : Nat
  error_count : Nat
  deriving DecidableEq

/-- The function `main` after `argp_parse` has filled `args` and after the
line table of lines 76-79 has been allocated and zeroed; `fopen` gives the
bytes of the file at a path, `none` when it cannot be opened.  The result is
`none` when the run stores or loads outside the line table. -/
def main (args : arguments) (fopen : List Nat → Option (List Nat)) : Option Run :=
  let lines_to_check := args.lines_to_check_default
  if !args.warning_set || !args.critical_set || !args.file_set then
    some { exit_code := UNKNOWN, error_count := 0 }
  else if args.critical_threshold < args.warning_threshold then
    some { exit_code := UNKNOWN, error_count := 0 }
  else
    match fopen args.log_file with
    | none => some { exit_code := UNKNOWN, error_count := 0 }
    | some file =>
      let t := get_last_lines file (zero_table lines_to_check) lines_to_check
      if t.stores.all (fun i => decide (i < lines_to_check)) then
        let line_count := t.line_count
        match count_errors args.check_string t.lines line_count
            ((lines_to_check : Int) - (line_count : Int)) 0 with
        | none => none
        | some error_count =>
          some { exit_code := status error_count args.warning_threshold args.critical_threshold
                 error_count := error_count }
      else none

/-- The function `main` from its first statement, on a stack that has room for
`stack` bytes of line table: the table `char lines[lines_to_check][MAX_LINE_LENGTH]`
is allocated and zeroed before the arguments are validated (lines 76-79), and
the run is killed, with no result, when it does not fit. -/
def main_on_stack (stack : Nat) (args : arguments) (fopen : List Nat → Option (List Nat)) :
    Option Run :=
  if args.lines_to_check_default * MAX_LINE_LENGTH ≤ stack then main args fopen else none

/-! ## The text printed by `main` (lines 85, 94, 103, 123, 129, 135) -/

/-- The bytes of a string literal of the source. -/
def ascii (s : String) : List Nat := s.toList.map (fun ch => ch.toNat)

/-- The decimal digits of `n`, most significant first, put in front of `acc`;
`fuel` bounds the number of digits. -/
def decimal_digits : Nat → Nat → List Nat → List Nat
  | 0, _, acc => acc
  | fuel + 1, n, acc =>
    if n / 10 = 0 then (48 + n % 10) :: acc
    else decimal_digits fuel (n / 10) ((48 + n % 10) :: acc)

/-- What the conversion `%d` of `printf` prints for a non-negative `int`. -/
def print_int (n : Nat) : List Nat := decimal_digits (n + 1) n []

/-- The call `printf("<STATUS>: Found %d \"%s\" in the last %d lines of %s\n",
error_count, args.check_string, lines_to_check, args.log_file)` of lines 123,
129 and 135, where `status_name` is the word the format string starts with;
the two `%s` print C strings. -/
def printf_found (status_name : List Nat) (error_count : Nat) (check_string : List Nat)
    (lines_to_check : Nat) (log_file : List Nat) : List Nat :=
  status_name ++ ascii ": Found " ++ print_int error_count ++ [32, 34] ++ cstr check_string ++
    [34] ++ ascii " in the last " ++ print_int lines_to_check ++ ascii " lines of " ++
    cstr log_file ++ [NL]

/-- The bytes that `main` writes to the standard output, along the same paths
as `main`: `none` when the run stores or loads outside the line table. -/
def main_stdout (args : arguments) (fopen : List Nat → Option (List Nat)) :
    Option (List Nat) :=
  let lines_to_check := args.lines_to_check_default
  if !args.warning_set || !args.critical_set || !args.file_set then
    some (ascii "UNKNOWN:" ++ [32] ++ ascii "--warning" ++ [32] ++ ascii "--critical and" ++
      [32] ++ ascii "--file options must be specified." ++ [NL] ++ ascii "Use" ++ [32] ++
      ascii "--help option to see more information" ++ [NL])
  else if args.critical_threshold < args.warning_threshold then
    some (ascii "UNKNOWN: CRITICAL threshold must be greater than or equal to WARNING threshold."
      ++ [NL] ++ ascii "Use" ++ [32] ++ ascii "--help option to see more information" ++ [NL])
  else
    match fopen args.log_file with
    | none => some (ascii "UNKNOWN: Unable to open log file: " ++ cstr args.log_file ++ [NL])
    | some file =>
      let t := get_last_lines file (zero_table lines_to_check) lines_to_check
      if t.stores.all (fun i => decide (i < lines_to_check)) then
        let line_count := t.line_count
        match count_errors args.check_string t.lines line_count
            ((lines_to_check : Int) - (line_count : Int)) 0 with
        | none => none
        | some error_count =>
          if error_count ≥ args.critical_threshold then
            some (printf_found (ascii "CRITICAL") error_count args.check_string lines_to_check
              args.log_file)
          else if error_count ≥ args.warning_threshold then
            some (printf_found (ascii "WARNING") error_count args.check_string lines_to_check
              args.log_file)
          else
            some (printf_found (ascii "OK") error_count args.check_string lines_to_check
              args.log_file)
      else none

/-- The word that names an exit code in the output. -/
def status_name (exit_code : Nat) : List Nat :=
  if exit_code = CRITICAL then ascii "CRITICAL"
  else if exit_code = WARNING then ascii "WARNING"
  else if exit_code = OK then ascii "OK"
  else ascii "UNKNOWN"

/-! ## `parse_opt` (lines 144-181) -/

/-- The test `isspace` of the C locale. -/
def isspace (b : Nat) : Bool := b == 32 || (9 ≤ b && b ≤ 13)

/-- The value of the leading decimal digits of a string, after the digits
already read gave `acc`. -/
def atoi_digits : List Nat → Nat → Nat
  | [], acc => acc
  | b :: rest, acc =>
    if 48 ≤ b ∧ b ≤ 57 then atoi_digits rest (acc * 10 + (b - 48)) else acc

/-- The library function `atoi` on the memory of a C string: white space is
skipped, an optional sign is read, then the decimal digits.  The value is the
mathematical one; in C it is defined only when it fits an `int`. -/
def atoi (arg : List Nat) : Int :=
  match (cstr arg).dropWhile isspace with
  | 45 :: rest => - (atoi_digits rest 0 : Int)
  | 43 :: rest => (atoi_digits rest 0 : Int)
  | s => (atoi_digits s 0 : Int)

/-- The conversion of an `int` to `unsigned short`: the value modulo `2 ^ 16`. -/
def to_ushort (x : Int) : Nat := (x % 65536).toNat

/-- The function `parse_opt` for the option `key` with argument `arg`, on the
structure `state->input` points to: `some` of the updated structure when it
returns 0, `none` when it returns `ARGP_ERR_UNKNOWN`.  The keys are the
characters `w` (119), `c` (99), `f` (102), `s` (115) and `l` (108). -/
def parse_opt (key : Nat) (arg : List Nat) (a : arguments) : Option arguments :=
  if key = 119 then
    some { a with warning_threshold := to_ushort (atoi arg), warning_set := true }
  else if key = 99 then
    some { a with critical_threshold := to_ushort (atoi arg), critical_set := true }
  else if key = 102 then
    some { a with log_file := arg, file_set := true }
  else if key = 115 then
    some { a with check_string := arg, string_set := true }
  else if key = 108 then
    some { a with lines_to_check_default := to_ushort (atoi arg) }
  else none

/-! ## Definitions used to state the properties -/

/-- The bytes from the start of `stream` up to and including its first
terminator; all of `stream` when it has none. -/
def first_record : List Nat → List Nat
  | [] => []
  | b :: rest => if b = NL then [b] else b :: first_record rest

/-- The records of a file: it is cut after every terminator, so each record
but the last ends with one, and the last record is what follows the last
terminator (empty when the file is empty or ends with a terminator). -/
def split_records : List Nat → List (List Nat)
  | [] => [[]]
  | b :: rest =>
    if b = NL then [b] :: split_records rest
    else
      match split_records rest with
      | [] => [[b]]
      | r :: rs => (b :: r) :: rs

/-- The lines of a file: its non-empty records, in file order.  A final line
without a terminator is a line. -/
def file_lines (file : List Nat) : List (List Nat) :=
  (split_records file).filter (fun r => r != [])

/-- The bytes after the last terminator of the file; the whole file when it
has none. -/
def after_last_terminator (file : List Nat) : List Nat :=
  (file.reverse.takeWhile (fun b => b != NL)).reverse

/-- An untouched slot of the table: `MAX_LINE_LENGTH` zero bytes. -/
def zero_slot : List Nat := List.replicate MAX_LINE_LENGTH 0

/-- A slot holding `bytes` and nothing else: the bytes, then zero bytes up to
`MAX_LINE_LENGTH`. -/
def slot_of (bytes : List Nat) : List Nat :=
  bytes ++ List.replicate (MAX_LINE_LENGTH - bytes.length) 0

/-- The slot that `read_line` leaves when it reads from offset `start` of the
file into an untouched slot. -/
def slot_from (file : List Nat) (start : Nat) : List Nat :=
  fgets zero_slot MAX_LINE_LENGTH (file.drop start)

/-- The offsets just after the terminators that lie below `pos`, nearest the
end of the file first: the order in which the backward scan meets them. -/
def line_starts (file : List Nat) : Nat → List Nat
  | 0 => []
  | pos + 1 =>
    if file.get? pos = some NL then (pos + 1) :: line_starts file pos
    else line_starts file pos

/-! ## Arithmetic and list facts -/

theorem u32_of_lt {x : Nat} (h : x < 2 ^ 32) : u32 x = x := Nat.mod_eq_of_lt h

theorem u32_pred_of_pos {x : Nat} (h0 : 0 < x) (h : x < 2 ^ 32) : u32_pred x = x - 1 := by
  unfold u32_pred
  norm_num at h ⊢
  omega

theorem u32_pred_zero : u32_pred 0 = 2 ^ 32 - 1 := by decide

theorem set_last_free (a : Nat) (v : List Nat) (done : List (List Nat)) :
    (List.replicate (a + 1) zero_slot ++ done).set a v =
      List.replicate a zero_slot ++ v :: done := by
  induction a with
  | zero => rfl
  | succ n ih =>
    rw [List.replicate_succ, List.cons_append, List.set_cons_succ, ih]
    rfl

theorem getD_last_free (a : Nat) (done : List (List Nat)) :
    (List.replicate (a + 1) zero_slot ++ done).getD a [] = zero_slot := by
  induction a with
  | zero => rfl
  | succ n ih =>
    rw [List.replicate_succ, List.cons_append, List.getD_cons_succ, ih]

theorem scan_spec (file : List Nat) (N : Nat) (hN : N < 2 ^ 32) :
    ∀ (pos a : Nat) (done : List (List Nat)) (idx : Nat) (st0 : List Nat),
      a + done.length = N → (0 < a → idx = a - 1) →
      (scan file N pos ⟨done.length, idx, List.replicate a zero_slot ++ done, st0⟩).1 =
          (match (line_starts file pos).get? a with
            | none => 0
            | some st => st - 1) ∧
      (scan file N pos ⟨done.length, idx, List.replicate a zero_slot ++ done, st0⟩).2.line_count =
          done.length + min a (line_starts file pos).length ∧
      (scan file N pos ⟨done.length, idx, List.replicate a zero_slot ++ done, st0⟩).2.lines =
          List.replicate (a - (line_starts file pos).length) zero_slot ++
            (((line_starts file pos).take a).map (slot_from file)).reverse ++ done ∧
      ((line_starts file pos).length < a →
        (scan file N pos ⟨done.length, idx, List.replicate a zero_slot ++ done, st0⟩).2.index =
          a - (line_starts file pos).length - 1) ∧
      (a ≤ (line_starts file pos).length → 0 < a →
        (scan file N pos ⟨done.length, idx, List.replicate a zero_slot ++ done, st0⟩).2.index =
          2 ^ 32 - 1) ∧
      (a = 0 →
        (scan file N pos ⟨done.length, idx, List.replicate a zero_slot ++ done, st0⟩).2.index = idx) ∧
      (∀ i ∈ (scan file N pos ⟨done.length, idx, List.replicate a zero_slot ++ done, st0⟩).2.stores,
        i ∈ st0 ∨ i < N) := by
  intro pos
  induction pos with
  | zero =>
    intro a done idx st0 ha hidx
    simp only [scan, line_starts]
    refine ⟨by simp, by simp, by simp, ?_, ?_, ?_, ?_⟩
    · intro h; simp at h; exact hidx h
    · intro h h0; simp at h; omega
    · intro _; trivial
    · intro i hi; exact Or.inl hi
  | succ p ih =>
    intro a done idx st0 ha hidx
    by_cases hnl : file.get? p = some NL
    · by_cases hroom : done.length < u32 N
      · -- a line is read into the last free slot
        rw [u32_of_lt hN] at hroom
        obtain ⟨a', rfl⟩ : ∃ a', a = a' + 1 := ⟨a - 1, by omega⟩
        have hi : idx = a' := by have := hidx (by omega); omega
        subst hi
        have hstep : scan file N (p + 1) ⟨done.length, idx, List.replicate (idx + 1) zero_slot ++ done, st0⟩
            = scan file N p ⟨(slot_from file (p + 1) :: done).length, u32_pred idx,
                List.replicate idx zero_slot ++ (slot_from file (p + 1) :: done),
                (if file.drop (p + 1) = [] then st0 else st0 ++ [idx])⟩ := by
          rw [scan, if_pos hnl, if_pos (by rw [u32_of_lt hN]; exact hroom)]
          simp only [read_line, set_last_free, getD_last_free, List.length_cons]
          rw [u32_of_lt (by omega)]
          rfl
        rw [hstep]
        have hl : line_starts file (p + 1) = (p + 1) :: line_starts file p := by
          rw [line_starts, if_pos hnl]
        rw [hl]
        obtain ⟨h1, h2, h3, h4, h5, h6, h7⟩ :=
          ih idx (slot_from file (p + 1) :: done) (u32_pred idx)
            (if file.drop (p + 1) = [] then st0 else st0 ++ [idx])
            (by simp only [List.length_cons]; omega)
            (fun h => u32_pred_of_pos h (by omega))
        refine ⟨?_, ?_, ?_, ?_, ?_, ?_, ?_⟩
        · rw [h1]; simp
        · rw [h2]; simp only [List.length_cons]; omega
        · rw [h3]; simp
        · intro h; simp only [List.length_cons] at h
          rw [h4 (by omega)]; simp only [List.length_cons]; omega
        · intro h _
          simp only [List.length_cons] at h
          by_cases hz : idx = 0
          · rw [h6 hz, hz]; exact u32_pred_zero
          · exact h5 (by omega) (by omega)
        · intro h; omega
        · intro i hi
          rcases h7 i hi with h | h
          · split at h
            · exact Or.inl h
            · rcases List.mem_append.1 h with h | h
              · exact Or.inl h
              · right; simp at h; omega
          · exact Or.inr h
      · -- the table is full: break
        have ha0 : a = 0 := by rw [u32_of_lt hN] at hroom; omega
        subst ha0
        have hstep : scan file N (p + 1) ⟨done.length, idx, List.replicate 0 zero_slot ++ done, st0⟩
            = (p, ⟨done.length, idx, List.replicate 0 zero_slot ++ done, st0⟩) := by
          rw [scan, if_pos hnl, if_neg hroom]
        rw [hstep]
        have hl : line_starts file (p + 1) = (p + 1) :: line_starts file p := by
          rw [line_starts, if_pos hnl]
        rw [hl]
        refine ⟨by simp, by simp, by simp, ?_, ?_, ?_, ?_⟩
        · intro h; simp at h
        · intro _ h; omega
        · intro _; trivial
        · intro i hi; exact Or.inl hi
    · have hstep : scan file N (p + 1) ⟨done.length, idx, List.replicate a zero_slot ++ done, st0⟩
          = scan file N p ⟨done.length, idx, List.replicate a zero_slot ++ done, st0⟩ := by
        rw [scan, if_neg hnl]
      have hl : line_starts file (p + 1) = line_starts file p := by
        rw [line_starts, if_neg hnl]
      rw [hstep, hl]
      exact ih a done idx st0 ha hidx

theorem fgets_bytes_length_le : ∀ (n : Nat) (stream : List Nat),
    (fgets_bytes n stream).length ≤ n
  | 0, _ => by simp [fgets_bytes]
  | _ + 1, [] => by simp [fgets_bytes]
  | n + 1, b :: rest => by
    rw [fgets_bytes]
    split
    · simp
    · simp only [List.length_cons]
      have := fgets_bytes_length_le n rest
      omega

theorem fgets_zero_slot (stream : List Nat) :
    fgets zero_slot MAX_LINE_LENGTH stream = slot_of (fgets_bytes (MAX_LINE_LENGTH - 1) stream) := by
  cases stream with
  | nil => rfl
  | cons b rest =>
    have hlen := fgets_bytes_length_le (MAX_LINE_LENGTH - 1) (b :: rest)
    simp only [fgets, slot_of, zero_slot, List.drop_replicate]
    simp only [MAX_LINE_LENGTH] at hlen ⊢
    congr 1
    have : 300 - (fgets_bytes (300 - 1) (b :: rest)).length
        = (300 - ((fgets_bytes (300 - 1) (b :: rest)).length + 1)) + 1 := by omega
    rw [this, List.replicate_succ]

theorem fgets_bytes_no_nl : ∀ (n : Nat) (stream : List Nat), NL ∉ stream →
    fgets_bytes n stream = stream.take n
  | 0, _, _ => by simp [fgets_bytes]
  | _ + 1, [], _ => by simp [fgets_bytes]
  | n + 1, b :: rest, h => by
    have hb : b ≠ NL := fun e => h (by simp [e])
    have hr : NL ∉ rest := fun e => h (by simp [e])
    rw [fgets_bytes, if_neg hb, fgets_bytes_no_nl n rest hr, List.take_succ_cons]

theorem line_starts_zero (file : List Nat) : line_starts file 0 = [] := rfl

theorem line_starts_skip (pre suf : List Nat) (h : NL ∉ suf) :
    ∀ j, j ≤ suf.length →
      line_starts (pre ++ suf) (pre.length + j) = line_starts (pre ++ suf) pre.length
  | 0, _ => rfl
  | j + 1, hj => by
    have hget : (pre ++ suf).get? (pre.length + j) ≠ some NL := by
      rw [List.get?_eq_getElem?, List.getElem?_append_right (by omega)]
      intro e
      have : pre.length + j - pre.length = j := by omega
      rw [this] at e
      exact h (List.getElem?_mem e)
    rw [← Nat.add_assoc, line_starts, if_neg hget]
    exact line_starts_skip pre suf h j (by omega)

theorem line_starts_after_nl (pre suf : List Nat) :
    line_starts (pre ++ NL :: suf) (pre.length + 1) =
      (pre.length + 1) :: line_starts (pre ++ NL :: suf) pre.length := by
  have hget : (pre ++ NL :: suf).get? pre.length = some NL := by
    rw [List.get?_eq_getElem?, List.getElem?_append_right (Nat.le_refl _)]
    simp
  rw [line_starts, if_pos hget]

theorem tail_init_eq (N : Nat) :
    tail_init (zero_table N) N = ⟨([] : List (List Nat)).length, u32_pred N,
      List.replicate N zero_slot ++ [], []⟩ := by
  simp [tail_init, zero_table, zero_slot]

/-- When the file has fewer terminators than the table has slots, the
table ends up holding one slot for the start of the file and one for each
terminator, in file order, and every store stays inside it. -/
theorem get_last_lines_fits (file : List Nat) (N : Nat) (hN : N < 2 ^ 32)
    (hfit : (line_starts file file.length).length < N) :
    (get_last_lines file (zero_table N) N).line_count = (line_starts file file.length).length + 1 ∧
    (get_last_lines file (zero_table N) N).lines =
      List.replicate (N - 1 - (line_starts file file.length).length) zero_slot ++
        (0 :: (line_starts file file.length).reverse).map (slot_from file) ∧
    (∀ i ∈ (get_last_lines file (zero_table N) N).stores, i < N) := by
  obtain ⟨h1, h2, h3, h4, -, -, h7⟩ :=
    scan_spec file N hN file.length N [] (u32_pred N) [] (by simp)
      (fun h => u32_pred_of_pos h hN)
  rw [← tail_init_eq] at h1 h2 h3 h4 h7
  have hnone : (line_starts file file.length).get? N = none :=
    List.get?_eq_none.2 (Nat.le_of_lt hfit)
  rw [hnone] at h1
  have hidx := h4 hfit
  simp only [List.length_nil, Nat.zero_add, List.append_nil,
    Nat.min_eq_right (Nat.le_of_lt hfit), List.take_of_length_le (Nat.le_of_lt hfit)] at h2 h3
  have hsplit : N - (line_starts file file.length).length
      = (N - 1 - (line_starts file file.length).length) + 1 := by omega
  have hidx' : (scan file N file.length (tail_init (zero_table N) N)).2.index
      = N - 1 - (line_starts file file.length).length := by omega
  unfold get_last_lines
  simp only [h1, if_true, read_line]
  refine ⟨?_, ?_, ?_⟩
  · rw [h2]; exact u32_of_lt (by omega)
  · rw [h3, hidx', hsplit, set_last_free, getD_last_free]
    simp [slot_from, List.map_reverse]
  · intro i hi
    split at hi
    · rcases h7 i hi with h | h
      · simp at h
      · exact h
    · rcases List.mem_append.1 hi with h | h
      · rcases h7 i h with h | h
        · simp at h
        · exact h
      · simp at h; omega

/-- On a run whose stores all stay inside the table, the last slot of the
table holds what `fgets` reads at the offset the backward scan meets first. -/
theorem get_last_lines_last_slot (file : List Nat) (N : Nat) (h1N : 1 ≤ N) (hN31 : N < 2 ^ 31)
    (_hin : ∀ i ∈ (get_last_lines file (zero_table N) N).stores, i < N) :
    (get_last_lines file (zero_table N) N).lines.get? (N - 1) =
        some (slot_from file ((line_starts file file.length).headD 0)) ∧
    1 ≤ (get_last_lines file (zero_table N) N).line_count := by
  have hN : N < 2 ^ 32 := by omega
  cases hL : line_starts file file.length with
  | nil =>
    obtain ⟨hc, hl, -⟩ := get_last_lines_fits file N hN (by rw [hL]; exact h1N)
    rw [hL] at hc hl
    refine ⟨?_, by rw [hc]; simp⟩
    rw [hl]
    simp only [List.length_nil, Nat.sub_zero, List.reverse_nil, List.map_cons, List.map_nil,
      List.headD_nil]
    rw [List.get?_eq_getElem?, List.getElem?_append_right (by simp)]
    simp
  | cons st L' =>
    obtain ⟨h1, h2, h3, h4, h5, -, -⟩ :=
      scan_spec file N hN file.length N [] (u32_pred N) [] (by simp)
        (fun h => u32_pred_of_pos h hN)
    rw [← tail_init_eq] at h1 h2 h3 h4 h5
    rw [hL] at h1 h2 h3 h4 h5
    obtain ⟨n, rfl⟩ : ∃ n, N = n + 1 := ⟨N - 1, by omega⟩
    simp only [List.length_nil, Nat.zero_add, List.append_nil, List.length_cons,
      List.take_succ_cons, List.map_cons, List.reverse_cons] at h2 h3 h4 h5
    have hlast : ∀ (X : List (List Nat)), X.length = n + 1 →
        (∃ Y, X = Y ++ [slot_from file st]) → X.get? n = some (slot_from file st) := by
      rintro X hX ⟨Y, rfl⟩
      have hY : Y.length = n := by simpa using hX
      rw [List.get?_eq_getElem?, List.getElem?_append_right (by omega)]
      simp [hY]
    have hlen : (scan file (n + 1) file.length (tail_init (zero_table (n + 1)) (n + 1))).2.lines.length = n + 1 := by
      rw [h3]
      simp only [List.length_append, List.length_replicate, List.length_reverse, List.length_map,
        List.length_take, List.length_cons, List.length_nil]
      omega
    have hshape : ∃ Y, (scan file (n + 1) file.length (tail_init (zero_table (n + 1)) (n + 1))).2.lines
        = Y ++ [slot_from file st] := by
      rw [h3]
      exact ⟨_, (List.append_assoc _ _ _).symm⟩
    simp only [List.headD_cons, Nat.add_sub_cancel]
    unfold get_last_lines
    by_cases hp : (scan file (n + 1) file.length (tail_init (zero_table (n + 1)) (n + 1))).1 = 0
    · simp only [hp, if_true, read_line]
      constructor
      · have hne : (scan file (n + 1) file.length (tail_init (zero_table (n + 1)) (n + 1))).2.index ≠ n := by
          by_cases hlt : L'.length + 1 < n + 1
          · rw [h4 hlt]; omega
          · rw [h5 (by omega) (by omega)]
            norm_num at hN ⊢
            omega
        rw [List.get?_eq_getElem?, List.getElem?_set_ne hne, ← List.get?_eq_getElem?]
        exact hlast _ hlen hshape
      · rw [h2]
        have hmin : min (n + 1) (L'.length + 1) ≤ n + 1 := Nat.min_le_left _ _
        have hu := u32_of_lt (show min (n + 1) (L'.length + 1) + 1 < 2 ^ 32 by omega)
        rw [hu]
        omega
    · simp only [hp, if_false]
      refine ⟨hlast _ hlen hshape, ?_⟩
      rw [h2]
      have : (st :: L').get? (n + 1) ≠ none := by
        intro e
        rw [e] at h1
        exact hp h1
      rw [Ne, List.get?_eq_none] at this
      simp only [List.length_cons] at this
      omega

theorem split_at_last_terminator (file : List Nat) :
    ∃ pre : List Nat, file = pre ++ after_last_terminator file ∧
      NL ∉ after_last_terminator file ∧
      (pre = [] ∨ ∃ pre', pre = pre' ++ [NL]) := by
  refine ⟨(file.reverse.dropWhile (fun b => b != NL)).reverse, ?_, ?_, ?_⟩
  · unfold after_last_terminator
    rw [← List.reverse_append, List.takeWhile_append_dropWhile, List.reverse_reverse]
  · unfold after_last_terminator
    intro h
    have := List.mem_takeWhile_imp (List.mem_reverse.1 h)
    simp at this
  · have h := List.head?_dropWhile_not (fun b => b != NL) file.reverse
    cases hd : file.reverse.dropWhile (fun b => b != NL) with
    | nil => left; rfl
    | cons x rest =>
      right
      rw [hd] at h
      simp at h
      exact ⟨rest.reverse, by simp [h]⟩

theorem after_last_terminator_ne_nil (file : List Nat) (hne : file ≠ [])
    (hlast : file.getLast? ≠ some NL) : after_last_terminator file ≠ [] := by
  unfold after_last_terminator
  cases hr : file.reverse with
  | nil => exact absurd (List.reverse_eq_nil_iff.1 hr) hne
  | cons x rest =>
    have hx : file.getLast? = some x := by
      rw [← List.head?_reverse, hr]; rfl
    have hxn : x ≠ NL := fun e => hlast (by rw [hx, e])
    rw [List.takeWhile_cons_of_pos (by simpa using hxn)]
    simp

theorem slot_from_at_last_terminator (file : List Nat) (hne : file ≠ [])
    (hlast : file.getLast? ≠ some NL) :
    slot_from file ((line_starts file file.length).headD 0) =
      slot_of ((after_last_terminator file).take (MAX_LINE_LENGTH - 1)) := by
  obtain ⟨pre, hfile, hnl, hpre⟩ := split_at_last_terminator file
  have hsuf := after_last_terminator_ne_nil file hne hlast
  generalize after_last_terminator file = suf at hfile hnl hsuf ⊢
  subst hfile
  have hskip := line_starts_skip pre suf hnl suf.length (Nat.le_refl _)
  rw [List.length_append, hskip]
  rcases hpre with rfl | ⟨pre', rfl⟩
  · simp only [List.length_nil, line_starts_zero, List.headD_nil, slot_from, List.drop_zero,
      List.nil_append]
    rw [fgets_zero_slot, fgets_bytes_no_nl _ _ hnl]
  · have h := line_starts_after_nl pre' suf
    simp only [List.append_assoc, List.singleton_append, List.length_append, List.length_cons,
      List.length_nil, Nat.zero_add] at h ⊢
    rw [h, List.headD_cons, slot_from]
    have hdrop : List.drop (pre'.length + 1) (pre' ++ NL :: suf) = suf := by
      simp
    rw [hdrop, fgets_zero_slot, fgets_bytes_no_nl _ _ hnl]

theorem fgets_bytes_eq_take : ∀ (n : Nat) (stream : List Nat),
    fgets_bytes n stream = (first_record stream).take n
  | 0, _ => by simp [fgets_bytes]
  | _ + 1, [] => by simp [fgets_bytes, first_record]
  | n + 1, b :: rest => by
    rw [fgets_bytes, first_record]
    split
    · simp
    · rw [List.take_succ_cons, fgets_bytes_eq_take n rest]

theorem line_starts_cons (b : Nat) (rest : List Nat) : ∀ p,
    line_starts (b :: rest) (p + 1) =
      (line_starts rest p).map (fun st => st + 1) ++ (if b = NL then [1] else [])
  | 0 => by
    simp only [line_starts, List.map_nil, List.nil_append]
    by_cases hb : b = NL <;> simp [hb]
  | p + 1 => by
    have ih := line_starts_cons b rest p
    have hget : (b :: rest).get? (p + 1) = rest.get? p := rfl
    rw [line_starts, hget]
    conv_rhs => rw [line_starts]
    by_cases h : rest.get? p = some NL
    · rw [if_pos h, if_pos h, ih]; rfl
    · rw [if_neg h, if_neg h, ih]

theorem records_of_starts : ∀ (file : List Nat),
    (0 :: (line_starts file file.length).reverse).map (fun st => first_record (file.drop st))
      = split_records file
  | [] => rfl
  | b :: rest => by
    have ih := records_of_starts rest
    simp only [List.map_cons, List.drop_zero] at ih
    have hmap : List.map (fun st => first_record (List.drop st (b :: rest)))
        (List.map (fun st => st + 1) (line_starts rest rest.length)).reverse
        = List.map (fun st => first_record (List.drop st rest))
            (line_starts rest rest.length).reverse := by
      rw [← List.map_reverse, List.map_map]
      rfl
    rw [List.length_cons, line_starts_cons, List.reverse_append]
    by_cases hb : b = NL
    · rw [if_pos hb, split_records, if_pos hb, ← ih]
      simp only [List.reverse_cons, List.reverse_nil, List.nil_append, List.map_cons,
        List.drop_zero, List.singleton_append, List.map_append]
      rw [hmap]
      simp [first_record, hb]
    · rw [if_neg hb, split_records, if_neg hb, ← ih]
      simp only [List.reverse_nil, List.nil_append, List.map_cons, List.drop_zero]
      rw [hmap]
      simp [first_record, hb]

theorem split_records_length (file : List Nat) :
    (split_records file).length = (line_starts file file.length).length + 1 := by
  rw [← records_of_starts]
  simp

theorem slots_of_starts (file : List Nat) :
    (0 :: (line_starts file file.length).reverse).map (slot_from file)
      = (split_records file).map (fun r => slot_of (r.take (MAX_LINE_LENGTH - 1))) := by
  rw [← records_of_starts, List.map_map]
  apply List.map_congr_left
  intro st _
  simp only [Function.comp, slot_from]
  rw [fgets_zero_slot, fgets_bytes_eq_take]

/-- When the file has no more records than the table has slots, the last
slots of the table hold the records of the file in file order, each cut to
`MAX_LINE_LENGTH - 1` bytes, the slots before them are untouched, and every
store stays inside the table. -/
theorem get_last_lines_records (file : List Nat) (N : Nat) (hN : N < 2 ^ 32)
    (hfit : (split_records file).length ≤ N) :
    (get_last_lines file (zero_table N) N).line_count = (split_records file).length ∧
    (get_last_lines file (zero_table N) N).lines =
      List.replicate (N - (split_records file).length) zero_slot ++
        (split_records file).map (fun r => slot_of (r.take (MAX_LINE_LENGTH - 1))) ∧
    (∀ i ∈ (get_last_lines file (zero_table N) N).stores, i < N) := by
  rw [split_records_length] at hfit ⊢
  obtain ⟨h1, h2, h3⟩ := get_last_lines_fits file N hN (by omega)
  refine ⟨h1, ?_, h3⟩
  rw [h2, slots_of_starts]
  congr 2
  omega

theorem strstr_isSome_iff : ∀ (hay needle : List Nat),
    (strstr hay needle).isSome = true ↔ needle <:+: hay
  | [], needle => by
    rw [strstr]
    by_cases h : needle = []
    · simp [h]
    · simp [h]
  | h :: hs, needle => by
    rw [strstr, List.infix_cons_iff, ← strstr_isSome_iff hs needle]
    by_cases hp : needle.isPrefixOf (h :: hs) = true
    · rw [if_pos hp]
      simp [List.isPrefixOf_iff_prefix.1 hp]
    · rw [if_neg hp]
      have : ¬ needle <+: h :: hs := fun e => hp (List.isPrefixOf_iff_prefix.2 e)
      simp [this]

theorem contains_string_eq (check_string line : List Nat) :
    contains_string check_string line =
      if cstr check_string <:+: cstr line then 1 else 0 := by
  unfold contains_string
  have h := strstr_isSome_iff (cstr line) (cstr check_string)
  cases hs : strstr (cstr line) (cstr check_string) with
  | none =>
    rw [hs] at h
    have : ¬ cstr check_string <:+: cstr line := fun e => by simpa using h.2 e
    simp [this]
  | some k =>
    rw [hs] at h
    simp [h.1 rfl]

theorem cstr_append_zeros : ∀ (bytes : List Nat) (m : Nat),
    cstr (bytes ++ List.replicate m 0) = cstr bytes
  | [], m => by
    cases m with
    | zero => rfl
    | succ k => simp [cstr, List.replicate_succ]
  | b :: rest, m => by
    have ih := cstr_append_zeros rest m
    unfold cstr at ih ⊢
    rw [List.cons_append, List.takeWhile_cons, List.takeWhile_cons, ih]

theorem cstr_slot_of (bytes : List Nat) : cstr (slot_of bytes) = cstr bytes :=
  cstr_append_zeros bytes _

theorem cstr_of_no_nul (bytes : List Nat) (h : 0 ∉ bytes) : cstr bytes = bytes := by
  unfold cstr
  rw [List.takeWhile_eq_self_iff]
  intro b hb
  have : b ≠ 0 := fun e => h (e ▸ hb)
  simpa using this

theorem lines_at_ofNat (lines : List (List Nat)) (j : Nat) :
    lines_at lines (j : Int) = lines.get? j := by
  simp [lines_at]

/-- The loop of `main` started at an index inside the table adds to
`error_count` one for every slot it visits that contains the string. -/
theorem count_errors_spec (check_string : List Nat) (lines : List (List Nat)) :
    ∀ (k j error_count : Nat), j + k ≤ lines.length →
      count_errors check_string lines k (j : Int) error_count =
        some (error_count +
          ((lines.drop j).take k).countP
            (fun line => decide (cstr check_string <:+: cstr line)))
  | 0, j, error_count, _ => by simp [count_errors]
  | k + 1, j, error_count, h => by
    have hj : j < lines.length := by omega
    have hget : lines.get? j = some (lines.get ⟨j, hj⟩) := List.get?_eq_get hj
    have hdrop : lines.drop j = lines.get ⟨j, hj⟩ :: lines.drop (j + 1) := by
      simp
    rw [count_errors, lines_at_ofNat, hget]
    simp only
    have hcast : ((j : Int) + 1) = ((j + 1 : Nat) : Int) := by push_cast; rfl
    rw [hcast, count_errors_spec check_string lines k (j + 1) _ (by omega), hdrop,
      List.take_succ_cons, List.countP_cons, contains_string_eq]
    by_cases hc : cstr check_string <:+: cstr (lines.get ⟨j, hj⟩)
    · simp only [hc, if_true, decide_True]
      congr 1
      omega
    · simp only [hc, if_false, decide_False]
      rfl

theorem mem_split_records : ∀ (file : List Nat) (r : List Nat), r ∈ split_records file →
    ∀ b ∈ r, b ∈ file
  | [], r, hr, b, hb => by
    simp [split_records] at hr
    subst hr
    simp at hb
  | x :: rest, r, hr, b, hb => by
    have ih := mem_split_records rest
    rw [split_records] at hr
    by_cases hx : x = NL
    · rw [if_pos hx] at hr
      rcases List.mem_cons.1 hr with h | h
      · subst h
        simp at hb
        simp [hb]
      · exact List.mem_cons_of_mem _ (ih r h b hb)
    · rw [if_neg hx] at hr
      cases hs : split_records rest with
      | nil =>
        rw [hs] at hr
        simp at hr
        subst hr
        simp at hb
        simp [hb]
      | cons r0 rs =>
        rw [hs] at hr
        rcases List.mem_cons.1 hr with h | h
        · subst h
          rcases List.mem_cons.1 hb with h | h
          · simp [h]
          · exact List.mem_cons_of_mem _ (ih r0 (by rw [hs]; simp) b h)
        · exact List.mem_cons_of_mem _ (ih r (by rw [hs]; simp [h]) b hb)

/-- Every record but the last is non-empty, and the last one is empty only
when the file is empty or ends with a terminator. -/
theorem split_records_shape : ∀ (file : List Nat),
    ∃ (init : List (List Nat)) (last : List Nat),
      split_records file = init ++ [last] ∧ (∀ r ∈ init, r ≠ []) ∧
      (last = [] → file = [] ∨ file.getLast? = some NL)
  | [] => ⟨[], [], rfl, by simp, fun _ => Or.inl rfl⟩
  | b :: rest => by
    obtain ⟨init, last, hs, hinit, hlast⟩ := split_records_shape rest
    rw [split_records]
    by_cases hb : b = NL
    · rw [if_pos hb, hs]
      refine ⟨[b] :: init, last, rfl, ?_, ?_⟩
      · intro r hr
        rcases List.mem_cons.1 hr with h | h
        · rw [h]; simp
        · exact hinit r h
      · intro hl
        right
        rcases hlast hl with h | h
        · rw [h, hb]; rfl
        · cases rest with
          | nil => simp at h
          | cons y ys => rw [List.getLast?_cons_cons]; exact h
    · rw [if_neg hb, hs]
      cases init with
      | nil =>
        refine ⟨[], b :: last, rfl, by simp, ?_⟩
        intro hl
        simp at hl
      | cons r0 rs =>
        refine ⟨(b :: r0) :: rs, last, rfl, ?_, ?_⟩
        · intro r hr
          rcases List.mem_cons.1 hr with h | h
          · rw [h]; simp
          · exact hinit r (List.mem_cons_of_mem _ h)
        · intro hl
          right
          rcases hlast hl with h | h
          · rw [h] at hs
            simp [split_records] at hs
          · cases rest with
            | nil => simp at h
            | cons y ys => rw [List.getLast?_cons_cons]; exact h

theorem split_records_length_le (file : List Nat) :
    (split_records file).length ≤ (file_lines file).length + 1 ∧
    (file ≠ [] → file.getLast? ≠ some NL →
      (split_records file).length = (file_lines file).length) := by
  obtain ⟨init, last, hs, hinit, hlast⟩ := split_records_shape file
  have hfilter : init.filter (fun r => r != []) = init := by
    rw [List.filter_eq_self]
    intro r hr
    simpa using hinit r hr
  unfold file_lines
  rw [hs, List.filter_append, hfilter]
  constructor
  · simp
  · intro hne hl
    have : last ≠ [] := fun e => by
      rcases hlast e with h | h
      · exact hne h
      · exact hl h
    simp [this]

theorem countP_file_lines (file needle : List Nat) (n : Nat) (hneedle : needle ≠ []) :
    (split_records file).countP (fun r => decide (needle <:+: r.take n)) =
      (file_lines file).countP (fun r => decide (needle <:+: r.take n)) := by
  unfold file_lines
  rw [List.countP_filter]
  apply List.countP_congr
  intro r _
  simp only [decide_eq_true_eq, Bool.and_eq_true, bne_iff_ne, ne_eq]
  constructor
  · intro h
    refine ⟨h, ?_⟩
    rintro rfl
    simp at h
    exact hneedle h
  · exact fun h => h.1

/-- A run of `main` with the mandatory flags supplied, `w ≤ c`, a file that
opens and has no more records than there are lines to check: the count is the
number of records whose first `MAX_LINE_LENGTH - 1` bytes, read as a C string,
contain the string. -/
theorem main_run (args : arguments) (fopen : List Nat → Option (List Nat)) (file : List Nat)
    (hw : args.warning_set = true) (hc : args.critical_set = true) (hf : args.file_set = true)
    (hwc : args.warning_threshold ≤ args.critical_threshold)
    (hopen : fopen args.log_file = some file)
    (hfit : (split_records file).length ≤ args.lines_to_check_default)
    (hN : args.lines_to_check_default < 65536) :
    main args fopen =
      some { exit_code := status
               ((split_records file).countP (fun r =>
                 decide (cstr args.check_string <:+: cstr (r.take (MAX_LINE_LENGTH - 1)))))
               args.warning_threshold args.critical_threshold
             error_count := (split_records file).countP (fun r =>
                 decide (cstr args.check_string <:+: cstr (r.take (MAX_LINE_LENGTH - 1)))) } := by
  obtain ⟨h1, h2, h3⟩ := get_last_lines_records file args.lines_to_check_default (by omega) hfit
  have hall : (get_last_lines file (zero_table args.lines_to_check_default)
      args.lines_to_check_default).stores.all
        (fun i => decide (i < args.lines_to_check_default)) = true := by
    rw [List.all_eq_true]
    intro i hi
    simpa using h3 i hi
  have hcast : ((args.lines_to_check_default : Int) - ((split_records file).length : Int))
      = ((args.lines_to_check_default - (split_records file).length : Nat) : Int) := by
    omega
  have hcount := count_errors_spec args.check_string
    (get_last_lines file (zero_table args.lines_to_check_default)
      args.lines_to_check_default).lines
    (split_records file).length
    (args.lines_to_check_default - (split_records file).length) 0
    (by rw [h2]; simp)
  have hdrop : ((get_last_lines file (zero_table args.lines_to_check_default)
      args.lines_to_check_default).lines.drop
        (args.lines_to_check_default - (split_records file).length)).take
          (split_records file).length
      = (split_records file).map (fun r => slot_of (r.take (MAX_LINE_LENGTH - 1))) := by
    rw [h2, List.drop_left' (by simp), List.take_of_length_le (by simp)]
  rw [hdrop, List.countP_map, Nat.zero_add] at hcount
  have hfun : ((fun line => decide (cstr args.check_string <:+: cstr line)) ∘
        fun r => slot_of (List.take (MAX_LINE_LENGTH - 1) r))
      = fun r => decide (cstr args.check_string <:+: cstr (r.take (MAX_LINE_LENGTH - 1))) := by
    funext r
    simp only [Function.comp, cstr_slot_of]
  rw [hfun] at hcount
  unfold main
  simp only [hw, hc, hf, Bool.not_true, Bool.or_self, Bool.false_eq_true, if_false,
    Nat.not_lt.2 hwc, hopen, hall, if_true, h1, hcast, hcount]

/-! ## The claims -/

/-- C1 (defect): asked for the last 2 lines of the three-line file
`"a\nb\nc\n"`, `get_last_lines` returns 2 but its slots hold `"c\n"` and an
untouched slot, not `"b\n"` and `"c\n"`; and on the three-line file
`"a\nb\nc"` it returns 3, not 2. -/
theorem get_last_lines_misses_last_lines :
    file_lines [97, 10, 98, 10, 99, 10] = [[97, 10], [98, 10], [99, 10]] ∧
    (get_last_lines [97, 10, 98, 10, 99, 10] (zero_table 2) 2).line_count = 2 ∧
    (get_last_lines [97, 10, 98, 10, 99, 10] (zero_table 2) 2).lines.map cstr = [[99, 10], []] ∧
    file_lines [97, 10, 98, 10, 99] = [[97, 10], [98, 10], [99]] ∧
    (get_last_lines [97, 10, 98, 10, 99] (zero_table 2) 2).line_count = 3 := by
  decide

/-- C2 (defect): on the two-line file `"a\nb\n"` with 5 slots,
`get_last_lines` returns 3, not 2, and the two lines are in slots 2 and 3, not
3 and 4; slot 4 is counted although nothing was read into it. -/
theorem get_last_lines_counts_end_of_file :
    file_lines [97, 10, 98, 10] = [[97, 10], [98, 10]] ∧
    (get_last_lines [97, 10, 98, 10] (zero_table 5) 5).line_count = 3 ∧
    (get_last_lines [97, 10, 98, 10] (zero_table 5) 5).lines.map cstr = [[], [], [97, 10], [98, 10], []] ∧
    (get_last_lines [97, 10, 98, 10] (zero_table 5) 5).stores = [3, 2] := by
  decide

/-- C3 (defect): on the file `"a\nb"` with 1 slot, `get_last_lines` returns
2, which is more than 1, its second store goes through index `4294967295`,
outside the table, and the index `1 - 2` at which `main` starts reading is
outside the table too. -/
theorem get_last_lines_overruns_table :
    (get_last_lines [97, 10, 98] (zero_table 1) 1).line_count = 2 ∧
    (get_last_lines [97, 10, 98] (zero_table 1) 1).stores = [0, 4294967295] ∧
    ((1 : Int) - ((get_last_lines [97, 10, 98] (zero_table 1) 1).line_count : Int)) = -1 ∧
    lines_at (get_last_lines [97, 10, 98] (zero_table 1) 1).lines
      ((1 : Int) - ((get_last_lines [97, 10, 98] (zero_table 1) 1).line_count : Int)) = none := by
  decide

/-- C4 (defect): on the empty file `get_last_lines` returns 1, not 0, for
every number of slots, although it stored nothing. -/
theorem get_last_lines_empty_file (N : Nat) :
    (get_last_lines [] (zero_table N) N).line_count = 1 ∧ (get_last_lines [] (zero_table N) N).stores = [] := by
  constructor <;> simp [get_last_lines, scan, read_line, tail_init, u32]

/-- On a run whose stores all stay inside the table, for a non-empty file
whose last byte is not a terminator and `1 ≤ N`, the last slot of the table
holds the bytes after the last terminator (the whole file when it has none),
cut to `MAX_LINE_LENGTH - 1` bytes, and the count returned is at least 1. -/
theorem partial_final_line_in_table (file : List Nat) (N : Nat) (h1 : 1 ≤ N) (hN : N < 2 ^ 31)
    (hne : file ≠ []) (hlast : file.getLast? ≠ some NL)
    (hin : ∀ i ∈ (get_last_lines file (zero_table N) N).stores, i < N) :
    (get_last_lines file (zero_table N) N).lines.get? (N - 1) =
        some (slot_of ((after_last_terminator file).take (MAX_LINE_LENGTH - 1))) ∧
    1 ≤ (get_last_lines file (zero_table N) N).line_count := by
  obtain ⟨h, hc⟩ := get_last_lines_last_slot file N h1 hN hin
  exact ⟨by rw [h, slot_from_at_last_terminator file hne hlast], hc⟩

/-- C5 (defect): the three-line file `"x\nx\ny"` is not empty and does not end
with a terminator; with 2 slots `get_last_lines` reads the partial final line
`"y"` into slot 1 and `"x\n"` into slot 0, and then stores a third line through
index `4294967295`, outside the table, so the C function returns no count. -/
theorem partial_final_line_then_overrun :
    ([120, 10, 120, 10, 121] : List Nat) ≠ [] ∧
    ([120, 10, 120, 10, 121] : List Nat).getLast? ≠ some NL ∧
    after_last_terminator [120, 10, 120, 10, 121] = [121] ∧
    (get_last_lines [120, 10, 120, 10, 121] (zero_table 2) 2).stores = [1, 0, 4294967295] ∧
    ¬ (∀ i ∈ (get_last_lines [120, 10, 120, 10, 121] (zero_table 2) 2).stores, i < 2) := by
  decide

/-- C6: the status is CRITICAL (2) when the count reaches the critical
threshold, else WARNING (1) when it reaches the warning threshold, else OK
(0); a count equal to a threshold triggers it; with `w ≤ c` each status holds
exactly on its range of counts; and this status is the exit code of every run
of `main` that is not UNKNOWN. -/
theorem status_priority (m w c : Nat) :
    (CRITICAL = 2 ∧ WARNING = 1 ∧ OK = 0) ∧
    (c ≤ m → status m w c = CRITICAL) ∧
    (m < c → w ≤ m → status m w c = WARNING) ∧
    (m < c → m < w → status m w c = OK) ∧
    status c w c = CRITICAL ∧
    (w < c → status w w c = WARNING) ∧
    (w ≤ c → (status m w c = OK ↔ m < w) ∧ (status m w c = WARNING ↔ w ≤ m ∧ m < c) ∧
      (status m w c = CRITICAL ↔ c ≤ m)) ∧
    (∀ (args : arguments) (fopen : List Nat → Option (List Nat)) (r : Run),
      main args fopen = some r → r.exit_code ≠ UNKNOWN →
        r.exit_code = status r.error_count args.warning_threshold args.critical_threshold) := by
  refine ⟨⟨rfl, rfl, rfl⟩, ?_, ?_, ?_, ?_, ?_, ?_, ?_⟩
  · intro h; simp [status, h]
  · intro h1 h2; simp [status, Nat.not_le.2 h1, h2]
  · intro h1 h2; simp [status, Nat.not_le.2 h1, Nat.not_le.2 h2]
  · simp [status]
  · intro h; simp [status, Nat.not_le.2 h]
  · intro hwc
    unfold status CRITICAL WARNING OK
    refine ⟨?_, ?_, ?_⟩ <;> split_ifs <;> simp <;> omega
  · intro args fopen r hr hne
    unfold main at hr
    simp only at hr
    split at hr
    · cases hr; exact absurd rfl hne
    · split at hr
      · cases hr; exact absurd rfl hne
      · split at hr
        · cases hr; exact absurd rfl hne
        · split at hr
          · split at hr
            · cases hr
            · cases hr; rfl
          · cases hr

theorem status_priority_witness :
    status 2 1 3 = WARNING ∧ status 2 5 10 = OK ∧ status 2 1 2 = CRITICAL :=
  ⟨(status_priority 2 1 3).2.2.1 (by decide) (by decide),
   (status_priority 2 5 10).2.2.2.1 (by decide) (by decide),
   (status_priority 2 1 2).2.1 (by decide)⟩

/-- The validation of `main`, once the line table is allocated: the run ends
with UNKNOWN exactly when a mandatory flag was not supplied, or the critical
threshold is below the warning threshold, or the file cannot be opened. -/
theorem main_unknown_iff (args : arguments) (fopen : List Nat → Option (List Nat)) :
    (∃ r, main args fopen = some r ∧ r.exit_code = UNKNOWN) ↔
      (args.warning_set = false ∨ args.critical_set = false ∨ args.file_set = false ∨
        args.critical_threshold < args.warning_threshold ∨ fopen args.log_file = none) := by
  have hst : ∀ m w c, status m w c ≠ UNKNOWN := by
    intro m w c
    unfold status CRITICAL WARNING OK UNKNOWN
    split_ifs <;> decide
  unfold main
  simp only
  constructor
  · rintro ⟨r, hr, hu⟩
    split at hr
    · rename_i h
      simp only [Bool.or_eq_true, Bool.not_eq_true'] at h
      tauto
    · split at hr
      · rename_i h; tauto
      · split at hr
        · rename_i h; tauto
        · split at hr
          · split at hr
            · cases hr
            · cases hr; exact absurd hu (hst _ _ _)
          · cases hr
  · intro h
    by_cases h1 : (!args.warning_set || !args.critical_set || !args.file_set) = true
    · rw [if_pos h1]; exact ⟨_, rfl, rfl⟩
    · rw [if_neg h1]
      by_cases h2 : args.critical_threshold < args.warning_threshold
      · rw [if_pos h2]; exact ⟨_, rfl, rfl⟩
      · rw [if_neg h2]
        have hnone : fopen args.log_file = none := by
          simp only [Bool.or_eq_true, Bool.not_eq_true'] at h1
          tauto
        rw [hnone]
        exact ⟨_, rfl, rfl⟩

/-- The same for the whole function on a stack that has room for the line
table; on a stack that has not, the run is killed before it validates
anything. -/
theorem main_on_stack_unknown_iff (stack : Nat) (args : arguments)
    (fopen : List Nat → Option (List Nat)) :
    (args.lines_to_check_default * MAX_LINE_LENGTH ≤ stack →
      ((∃ r, main_on_stack stack args fopen = some r ∧ r.exit_code = UNKNOWN) ↔
        (args.warning_set = false ∨ args.critical_set = false ∨ args.file_set = false ∨
          args.critical_threshold < args.warning_threshold ∨ fopen args.log_file = none))) ∧
    (stack < args.lines_to_check_default * MAX_LINE_LENGTH →
      main_on_stack stack args fopen = none) := by
  unfold main_on_stack
  constructor
  · intro h
    rw [if_pos h]
    exact main_unknown_iff args fopen
  · intro h
    rw [if_neg (Nat.not_le.2 h)]

/-- C7 (defect): with all three mandatory flags supplied, thresholds
`1 ≤ 1`, one line to check and a file that opens and holds `"a\nb"`, the run
has no exit code among 0, 1, 2: `get_last_lines` stores outside the line table
and `main` has no result. -/
theorem main_valid_run_without_exit_code :
    main { warning_threshold := 1, critical_threshold := 1, lines_to_check_default := 1,
           check_string := [97], log_file := [102], warning_set := true, critical_set := true,
           file_set := true, string_set := true }
      (fun _ => some [97, 10, 98]) = none := by
  decide

/-- C8: the loop of `main` over the slots `N - line_count .. N - 1` of a table
of `N` slots ends with `error_count` equal to the number of those slots whose
C string contains the C string `check_string` as a contiguous run of bytes; it
is at most `line_count`, and equal to it when `check_string` is empty. -/
theorem match_count_counts_present_slots (check_string : List Nat) (lines : List (List Nat))
    (line_count : Nat) (h : line_count ≤ lines.length) :
    count_errors check_string lines line_count
        ((lines.length : Int) - (line_count : Int)) 0 =
      some ((lines.drop (lines.length - line_count)).countP
        (fun line => decide (cstr check_string <:+: cstr line))) ∧
    (lines.drop (lines.length - line_count)).countP
        (fun line => decide (cstr check_string <:+: cstr line)) ≤ line_count ∧
    (cstr check_string = [] →
      (lines.drop (lines.length - line_count)).countP
        (fun line => decide (cstr check_string <:+: cstr line)) = line_count) := by
  have hlen : (lines.drop (lines.length - line_count)).length = line_count := by
    rw [List.length_drop]; omega
  have hcast : ((lines.length : Int) - (line_count : Int))
      = ((lines.length - line_count : Nat) : Int) := by omega
  refine ⟨?_, ?_, ?_⟩
  · rw [hcast, count_errors_spec check_string lines line_count (lines.length - line_count) 0
      (by omega), List.take_of_length_le (by omega), Nat.zero_add]
  · have hle := List.countP_le_length (fun line => decide (cstr check_string <:+: cstr line))
      (l := lines.drop (lines.length - line_count))
    rw [hlen] at hle
    exact hle
  · intro he
    rw [he, List.countP_eq_length.2 (by simp), hlen]

theorem match_count_counts_present_slots_witness :
    count_errors [97] [[120, 0], [97, 98, 0], [98, 97, 10, 0]] 2
        (((([[120, 0], [97, 98, 0], [98, 97, 10, 0]] : List (List Nat)).length : Nat) : Int)
          - ((2 : Nat) : Int)) 0 = some 2 :=
  (match_count_counts_present_slots [97] [[120, 0], [97, 98, 0], [98, 97, 10, 0]] 2
    (by decide)).1.trans (by decide)

/-- C9 (as stated, refuted): the one-line file `"x\0ERROR\n"` has one line that
contains `"ERROR"` within its first 299 bytes, yet with 30 lines to check and
thresholds `1 ≤ 1` the run reports 0 matches and OK, because the slot is
searched as a C string, which ends at the NUL byte.  And the one-line file
`"ERROR\n"` with 1 line to check has no result at all: `get_last_lines`
stores outside the table. -/
theorem pipeline_misses_match_after_nul :
    file_lines [120, 0, 69, 82, 82, 79, 82, 10] = [[120, 0, 69, 82, 82, 79, 82, 10]] ∧
    (file_lines [120, 0, 69, 82, 82, 79, 82, 10]).countP
      (fun l => decide ([69, 82, 82, 79, 82] <:+: l.take 299)) = 1 ∧
    status 1 1 1 = CRITICAL ∧
    main { warning_threshold := 1, critical_threshold := 1, lines_to_check_default := 30,
           check_string := [69, 82, 82, 79, 82], log_file := [102], warning_set := true,
           critical_set := true, file_set := true, string_set := true }
      (fun _ => some [120, 0, 69, 82, 82, 79, 82, 10]) =
        some { exit_code := OK, error_count := 0 } ∧
    file_lines [69, 82, 82, 79, 82, 10] = [[69, 82, 82, 79, 82, 10]] ∧
    main { warning_threshold := 1, critical_threshold := 1, lines_to_check_default := 1,
           check_string := [69, 82, 82, 79, 82], log_file := [102], warning_set := true,
           critical_set := true, file_set := true, string_set := true }
      (fun _ => some [69, 82, 82, 79, 82, 10]) = none := by
  decide

/-- C9 (amended): on a stack that has room for the line table of
`N * MAX_LINE_LENGTH` bytes, for a file without NUL bytes that opens, a
non-empty string, `1 ≤ N < 65536` lines to check, thresholds `w ≤ c`, and a file
of `K` lines with `K ≤ N`, and `K < N` when the file ends with a terminator: if
`m` of the lines of the file contain the string within their first
`MAX_LINE_LENGTH - 1` bytes, the run reports `error_count = m` and the status
classified from `m`. -/
theorem pipeline_counts_matching_lines (stack : Nat) (file needle path : List Nat)
    (N w c : Nat) (string_set : Bool) (fopen : List Nat → Option (List Nat))
    (hstack : N * MAX_LINE_LENGTH ≤ stack)
    (hopen : fopen path = some file) (hnul : 0 ∉ file) (hneedle : cstr needle ≠ [])
    (h1 : 1 ≤ N) (hN : N < 65536) (hK : (file_lines file).length ≤ N)
    (hend : file.getLast? = some NL → (file_lines file).length < N) (hwc : w ≤ c) :
    main_on_stack stack
        { warning_threshold := w, critical_threshold := c, lines_to_check_default := N,
          check_string := needle, log_file := path, warning_set := true,
          critical_set := true, file_set := true, string_set := string_set } fopen =
      some { exit_code := status
               ((file_lines file).countP
                 (fun l => decide (cstr needle <:+: l.take (MAX_LINE_LENGTH - 1)))) w c
             error_count := (file_lines file).countP
                 (fun l => decide (cstr needle <:+: l.take (MAX_LINE_LENGTH - 1))) } := by
  have hfit : (split_records file).length ≤ N := by
    obtain ⟨hle, heq⟩ := split_records_length_le file
    by_cases hne : file = []
    · subst hne; exact h1
    · by_cases hl : file.getLast? = some NL
      · have := hend hl; omega
      · rw [heq hne hl]; exact hK
  have hcount : (split_records file).countP
        (fun r => decide (cstr needle <:+: cstr (r.take (MAX_LINE_LENGTH - 1))))
      = (file_lines file).countP
        (fun l => decide (cstr needle <:+: l.take (MAX_LINE_LENGTH - 1))) := by
    rw [← countP_file_lines file (cstr needle) (MAX_LINE_LENGTH - 1) hneedle]
    apply List.countP_congr
    intro r hr
    have hr0 : 0 ∉ r.take (MAX_LINE_LENGTH - 1) := fun h0 =>
      hnul (mem_split_records file r hr 0 (List.mem_of_mem_take h0))
    rw [cstr_of_no_nul _ hr0]
  have h := main_run
    { warning_threshold := w, critical_threshold := c, lines_to_check_default := N,
      check_string := needle, log_file := path, warning_set := true,
      critical_set := true, file_set := true, string_set := string_set }
    fopen file rfl rfl rfl hwc hopen hfit hN
  simp only [hcount] at h
  unfold main_on_stack
  rw [if_pos hstack]
  exact h

theorem pipeline_counts_matching_lines_witness :
    main_on_stack 9000
        { warning_threshold := 1, critical_threshold := 3, lines_to_check_default := 30,
          check_string := [69, 82, 82, 79, 82], log_file := [102], warning_set := true,
          critical_set := true, file_set := true, string_set := true }
      (fun _ => some [97, 10, 69, 82, 82, 79, 82, 32, 49, 10, 98, 10, 97, 32, 69, 82, 82, 79,
        82, 10, 99, 10]) = some { exit_code := WARNING, error_count := 2 } ∧
    main_on_stack 9000
        { warning_threshold := 5, critical_threshold := 10, lines_to_check_default := 30,
          check_string := [69, 82, 82, 79, 82], log_file := [102], warning_set := true,
          critical_set := true, file_set := true, string_set := true }
      (fun _ => some [97, 10, 69, 82, 82, 79, 82, 32, 49, 10, 98, 10, 97, 32, 69, 82, 82, 79,
        82, 10, 99, 10]) = some { exit_code := OK, error_count := 2 } ∧
    main_on_stack 9000
        { warning_threshold := 1, critical_threshold := 2, lines_to_check_default := 30,
          check_string := [69, 82, 82, 79, 82], log_file := [102], warning_set := true,
          critical_set := true, file_set := true, string_set := true }
      (fun _ => some [97, 10, 69, 82, 82, 79, 82, 32, 49, 10, 98, 10, 97, 32, 69, 82, 82, 79,
        82, 10, 99, 10]) = some { exit_code := CRITICAL, error_count := 2 } :=
  ⟨(pipeline_counts_matching_lines 9000
      [97, 10, 69, 82, 82, 79, 82, 32, 49, 10, 98, 10, 97, 32, 69, 82, 82, 79, 82, 10, 99, 10]
      [69, 82, 82, 79, 82] [102] 30 1 3 true _ (by decide) rfl (by decide) (by decide)
      (by decide) (by decide) (by decide) (by decide) (by decide)).trans (by decide),
   (pipeline_counts_matching_lines 9000
      [97, 10, 69, 82, 82, 79, 82, 32, 49, 10, 98, 10, 97, 32, 69, 82, 82, 79, 82, 10, 99, 10]
      [69, 82, 82, 79, 82] [102] 30 5 10 true _ (by decide) rfl (by decide) (by decide)
      (by decide) (by decide) (by decide) (by decide) (by decide)).trans (by decide),
   (pipeline_counts_matching_lines 9000
      [97, 10, 69, 82, 82, 79, 82, 32, 49, 10, 98, 10, 97, 32, 69, 82, 82, 79, 82, 10, 99, 10]
      [69, 82, 82, 79, 82] [102] 30 1 2 true _ (by decide) rfl (by decide) (by decide)
      (by decide) (by decide) (by decide) (by decide) (by decide)).trans (by decide)⟩

/-- C10 (defect): on the empty file with the empty string, 30 lines to check
and thresholds `1 ≤ 1`, the run reports 1 match and CRITICAL, not 0 matches
and OK: the slot counted by `get_last_lines` on the empty file is searched. -/
theorem main_empty_file_empty_string :
    main { warning_threshold := 1, critical_threshold := 1, lines_to_check_default := 30,
           check_string := [], log_file := [102], warning_set := true, critical_set := true,
           file_set := true, string_set := false }
      (fun _ => some []) = some { exit_code := CRITICAL, error_count := 1 } := by
  decide

/-! ## Further facts about the scan -/

theorem line_starts_length : ∀ (file : List Nat),
    (line_starts file file.length).length = file.count NL
  | [] => rfl
  | b :: rest => by
    rw [List.length_cons, line_starts_cons, List.length_append, List.length_map,
      line_starts_length rest, List.count_cons]
    by_cases hb : b = NL <;> simp [hb]

theorem line_starts_get : ∀ (pre suf : List Nat),
    (line_starts (pre ++ NL :: suf) (pre ++ NL :: suf).length).get? (suf.count NL) =
      some (pre.length + 1)
  | [], suf => by
    rw [List.nil_append, List.length_cons, line_starts_cons, if_pos rfl,
      List.get?_eq_getElem?, List.getElem?_append_right (by simp [line_starts_length])]
    simp [line_starts_length]
  | b :: pre', suf => by
    have ih := line_starts_get pre' suf
    have hlt : suf.count NL < (line_starts (pre' ++ NL :: suf) (pre' ++ NL :: suf).length).length := by
      rw [line_starts_length]
      simp
      omega
    rw [List.cons_append, List.length_cons, line_starts_cons, List.get?_eq_getElem?,
      List.getElem?_append_left (by simpa using hlt), List.getElem?_map,
      ← List.get?_eq_getElem?, ih]
    simp

theorem get?_pad_reverse (a : Nat) (M : List (List Nat)) (k : Nat) (h1 : 1 ≤ k)
    (hk : k ≤ M.length) :
    (List.replicate a zero_slot ++ M.reverse).get? (a + M.length - k) = M.get? (k - 1) := by
  rw [List.get?_eq_getElem?, List.getElem?_append_right (by simp; omega),
    List.getElem?_reverse (by simp; omega), List.get?_eq_getElem?]
  congr 1
  simp
  omega

/-- The loop of `get_last_lines` stores inside the table only, it counts one
line for each terminator it meets up to `N`, and it leaves in slot `N - k` what
`fgets` reads at the offset after the `k`-th terminator it meets. -/
theorem scan_slot (file : List Nat) (N : Nat) (hN31 : N < 2 ^ 31) (k : Nat)
    (h1 : 1 ≤ k) (hkN : k ≤ N) (hkL : k ≤ (line_starts file file.length).length) :
    (scan file N file.length (tail_init (zero_table N) N)).2.lines.get? (N - k) =
        ((line_starts file file.length).get? (k - 1)).map (slot_from file) ∧
    (scan file N file.length (tail_init (zero_table N) N)).2.line_count =
        min N (line_starts file file.length).length ∧
    (∀ i ∈ (scan file N file.length (tail_init (zero_table N) N)).2.stores, i < N) := by
  have hN : N < 2 ^ 32 := by omega
  obtain ⟨-, h2, h3, -, -, -, h7⟩ :=
    scan_spec file N hN file.length N [] (u32_pred N) [] (by simp)
      (fun h => u32_pred_of_pos h hN)
  rw [← tail_init_eq] at h2 h3 h7
  simp only [List.length_nil, Nat.zero_add, List.append_nil] at h2 h3
  have hMlen : (((line_starts file file.length).take N).map (slot_from file)).length
      = min N (line_starts file file.length).length := by simp
  have hMk : k ≤ (((line_starts file file.length).take N).map (slot_from file)).length := by
    rw [hMlen]; exact Nat.le_min.2 ⟨hkN, hkL⟩
  have hidx : N - k = (N - (line_starts file file.length).length)
      + (((line_starts file file.length).take N).map (slot_from file)).length - k := by
    rw [hMlen]
    rcases Nat.le_total N (line_starts file file.length).length with h | h
    · rw [Nat.min_eq_left h]; omega
    · rw [Nat.min_eq_right h]; omega
  refine ⟨?_, h2, ?_⟩
  · rw [h3, hidx, get?_pad_reverse _ _ k h1 hMk, List.get?_eq_getElem?, List.getElem?_map,
      List.getElem?_take_of_lt (by omega), List.get?_eq_getElem?]
  · intro i hi
    rcases h7 i hi with h | h
    · simp at h
    · exact h

/-- On a run whose stores all stay inside the table, the slot `N - k` of the
table that `get_last_lines` leaves holds what `fgets` reads at the offset after
the `k`-th terminator the scan meets. -/
theorem get_last_lines_slot (file : List Nat) (N : Nat) (hN31 : N < 2 ^ 31) (k : Nat)
    (h1 : 1 ≤ k) (hkN : k ≤ N) (hkL : k ≤ (line_starts file file.length).length)
    (_hin : ∀ i ∈ (get_last_lines file (zero_table N) N).stores, i < N) :
    (get_last_lines file (zero_table N) N).lines.get? (N - k) =
        ((line_starts file file.length).get? (k - 1)).map (slot_from file) ∧
    (get_last_lines file (zero_table N) N).line_count ≤
        (line_starts file file.length).length + 1 := by
  have hN : N < 2 ^ 32 := by omega
  obtain ⟨-, h2, h3, h4, h5, -, -⟩ :=
    scan_spec file N hN file.length N [] (u32_pred N) [] (by simp)
      (fun h => u32_pred_of_pos h hN)
  rw [← tail_init_eq] at h2 h3 h4 h5
  simp only [List.length_nil, Nat.zero_add, List.append_nil] at h2 h3
  have hmin : min N (line_starts file file.length).length ≤ (line_starts file file.length).length :=
    Nat.min_le_right _ _
  have hmin' : min N (line_starts file file.length).length ≤ N := Nat.min_le_left _ _
  have hMlen : (((line_starts file file.length).take N).map (slot_from file)).length
      = min N (line_starts file file.length).length := by simp
  have hMk : k ≤ (((line_starts file file.length).take N).map (slot_from file)).length := by
    rw [hMlen]; exact Nat.le_min.2 ⟨hkN, hkL⟩
  have hidx : N - k = (N - (line_starts file file.length).length)
      + (((line_starts file file.length).take N).map (slot_from file)).length - k := by
    rw [hMlen]
    rcases Nat.le_total N (line_starts file file.length).length with h | h
    · rw [Nat.min_eq_left h]; omega
    · rw [Nat.min_eq_right h]; omega
  have hscan : (scan file N file.length (tail_init (zero_table N) N)).2.lines.get? (N - k)
      = ((line_starts file file.length).get? (k - 1)).map (slot_from file) := by
    rw [h3, hidx, get?_pad_reverse _ _ k h1 hMk, List.get?_eq_getElem?, List.getElem?_map,
      List.getElem?_take_of_lt (by omega), List.get?_eq_getElem?]
  unfold get_last_lines
  by_cases hp : (scan file N file.length (tail_init (zero_table N) N)).1 = 0
  · simp only [hp, if_true, read_line]
    constructor
    · have hne : (scan file N file.length (tail_init (zero_table N) N)).2.index ≠ N - k := by
        by_cases hlt : (line_starts file file.length).length < N
        · rw [h4 hlt]; omega
        · rw [h5 (by omega) (by omega)]
          norm_num at hN31 ⊢
          omega
      rw [List.get?_eq_getElem?, List.getElem?_set_ne hne, ← List.get?_eq_getElem?]
      exact hscan
    · rw [h2]
      exact Nat.le_trans (Nat.mod_le _ _) (by omega)
  · simp only [hp, if_false]
    exact ⟨hscan, by rw [h2]; omega⟩

theorem slot_from_eq (file : List Nat) (start : Nat) :
    slot_from file start =
      slot_of ((first_record (file.drop start)).take (MAX_LINE_LENGTH - 1)) := by
  rw [slot_from, fgets_zero_slot, fgets_bytes_eq_take]

/-! ## The claims, continued -/

/-- C12: for a file `pre ++ "\n" ++ suf` the terminator shown is the `k`-th
the backward scan meets, `k` being one more than the number of terminators in
`suf`; when `k ≤ N` the loop of `get_last_lines` leaves in slot `N - k` the
bytes of `suf` up to and including its first terminator (all of `suf` when it
has none), cut to `MAX_LINE_LENGTH - 1 = 299` bytes, whatever the length of
that line; the loop counts one line for each terminator it meets up to `N`, so
a long line takes one slot only, and it stores inside the table only.  The
table that `get_last_lines` returns has the same slot whenever its stores all
stay inside the table. -/
theorem terminator_fills_slot (pre suf : List Nat) (N : Nat) (hN : N < 2 ^ 31)
    (hk : suf.count NL + 1 ≤ N) :
    (scan (pre ++ NL :: suf) N (pre ++ NL :: suf).length
        (tail_init (zero_table N) N)).2.lines.get? (N - (suf.count NL + 1)) =
      some (slot_of ((first_record suf).take (MAX_LINE_LENGTH - 1))) ∧
    ((first_record suf).take (MAX_LINE_LENGTH - 1)).length ≤ 299 ∧
    (scan (pre ++ NL :: suf) N (pre ++ NL :: suf).length
        (tail_init (zero_table N) N)).2.line_count = min N ((pre ++ NL :: suf).count NL) ∧
    (∀ i ∈ (scan (pre ++ NL :: suf) N (pre ++ NL :: suf).length
        (tail_init (zero_table N) N)).2.stores, i < N) ∧
    ((∀ i ∈ (get_last_lines (pre ++ NL :: suf) (zero_table N) N).stores, i < N) →
      (get_last_lines (pre ++ NL :: suf) (zero_table N) N).lines.get?
          (N - (suf.count NL + 1)) =
        some (slot_of ((first_record suf).take (MAX_LINE_LENGTH - 1))) ∧
      (get_last_lines (pre ++ NL :: suf) (zero_table N) N).line_count ≤
        (pre ++ NL :: suf).count NL + 1) := by
  have hL := line_starts_length (pre ++ NL :: suf)
  have hcount : suf.count NL + 1 ≤ (pre ++ NL :: suf).count NL := by simp
  have hdrop : List.drop (pre.length + 1) (pre ++ NL :: suf) = suf := by
    simp
  obtain ⟨hs, hc, hst⟩ := scan_slot (pre ++ NL :: suf) N hN (suf.count NL + 1)
    (by omega) hk (by rw [hL]; exact hcount)
  refine ⟨?_, ?_, ?_, hst, ?_⟩
  · rw [hs, Nat.add_sub_cancel, line_starts_get, Option.map_some', slot_from_eq, hdrop]
  · rw [List.length_take]
    exact Nat.le_trans (Nat.min_le_left _ _) (by decide)
  · rw [hc, hL]
  · intro hin
    obtain ⟨gs, gc⟩ := get_last_lines_slot (pre ++ NL :: suf) N hN (suf.count NL + 1)
      (by omega) hk (by rw [hL]; exact hcount) hin
    refine ⟨?_, by rw [← hL]; exact gc⟩
    rw [gs, Nat.add_sub_cancel, line_starts_get, Option.map_some', slot_from_eq, hdrop]

theorem terminator_fills_slot_witness :
    first_record [98, 10, 99, 10] = [98, 10] ∧
    (scan ([97] ++ NL :: [98, 10, 99, 10]) 4 ([97] ++ NL :: [98, 10, 99, 10]).length
        (tail_init (zero_table 4) 4)).2.lines.get?
          (4 - (([98, 10, 99, 10] : List Nat).count NL + 1)) =
      some (slot_of ((first_record [98, 10, 99, 10]).take (MAX_LINE_LENGTH - 1))) :=
  ⟨by decide, (terminator_fills_slot [97] [98, 10, 99, 10] 4 (by decide) (by decide)).1⟩

/-- The conversion `%d` on some values, and the line printed for a count of 2
with the string `ERROR`, 30 lines and the path `f`. -/
theorem print_int_examples :
    print_int 0 = ascii "0" ∧ print_int 7 = ascii "7" ∧ print_int 30 = ascii "30" ∧
    print_int 65535 = ascii "65535" ∧
    printf_found (ascii "WARNING") 2 (ascii "ERROR") 30 (ascii "f") =
      ascii "WARNING: Found 2 " ++ [34] ++ ascii "ERROR" ++ [34] ++
        ascii " in the last 30 lines of f" ++ [NL] := by
  decide

/-- Along every path `main_stdout` has a result exactly when `main` has one,
and on a run that is not UNKNOWN the text is the one line
`<STATUS>: Found <count> "<string>" in the last <lines> lines of <file>`
with the name of the exit code, the count of `main`, and the number of lines
asked for. -/
theorem main_stdout_format (args : arguments) (fopen : List Nat → Option (List Nat)) :
    (main_stdout args fopen = none ↔ main args fopen = none) ∧
    (∀ r, main args fopen = some r → r.exit_code ≠ UNKNOWN →
      main_stdout args fopen =
        some (printf_found (status_name r.exit_code) r.error_count args.check_string
          args.lines_to_check_default args.log_file)) := by
  unfold main main_stdout
  simp only
  split
  · exact ⟨by simp, fun r hr hne => by cases hr; exact absurd rfl hne⟩
  · split
    · exact ⟨by simp, fun r hr hne => by cases hr; exact absurd rfl hne⟩
    · split
      · exact ⟨by simp, fun r hr hne => by cases hr; exact absurd rfl hne⟩
      · split
        · split
          · exact ⟨by simp, fun r hr _ => by cases hr⟩
          · rename_i error_count _
            refine ⟨?_, ?_⟩
            · constructor
              · intro h
                split_ifs at h
              · intro h
                cases h
            · intro r hr _
              cases hr
              simp only [status]
              by_cases h1 : error_count ≥ args.critical_threshold
              · rw [if_pos h1, if_pos h1]; rfl
              · rw [if_neg h1, if_neg h1]
                by_cases h2 : error_count ≥ args.warning_threshold
                · rw [if_pos h2, if_pos h2]; rfl
                · rw [if_neg h2, if_neg h2]; rfl
        · exact ⟨by simp, fun r hr _ => by cases hr⟩

/-- C11 (defect): with all three mandatory flags supplied, thresholds `1 ≤ 1`,
one line to check, the string `a` and a file that opens and holds `"a\nb"`,
validation passes and the file opens, yet the run prints no line of the form
`<STATUS>: Found ...`: `get_last_lines` stores outside the line table and the
run has no defined output. -/
theorem main_valid_run_without_output :
    main_stdout { warning_threshold := 1, critical_threshold := 1, lines_to_check_default := 1,
                  check_string := [97], log_file := [102], warning_set := true,
                  critical_set := true, file_set := true, string_set := true }
      (fun _ => some [97, 10, 98]) = none ∧
    (get_last_lines [97, 10, 98] (zero_table 1) 1).stores = [0, 4294967295] := by
  decide

/-- C13 (as stated, refuted): the first byte of the file `"\nb"` is a
terminator that the scan consumes (the scan ends at position 0 having read one
line, `"b"`, into slot 2), yet `get_last_lines` reads one additional line at
position 0, `"\n"`, into slot 1 and returns 2. -/
theorem extra_line_after_consumed_terminator :
    (scan [10, 98] 3 2 (tail_init (zero_table 3) 3)).1 = 0 ∧
    (scan [10, 98] 3 2 (tail_init (zero_table 3) 3)).2.line_count = 1 ∧
    (scan [10, 98] 3 2 (tail_init (zero_table 3) 3)).2.stores = [2] ∧
    (get_last_lines [10, 98] (zero_table 3) 3).line_count = 2 ∧
    (get_last_lines [10, 98] (zero_table 3) 3).stores = [2, 1] ∧
    (get_last_lines [10, 98] (zero_table 3) 3).lines.map cstr = [[], [10], [98]] := by
  decide

/-- C13 (amended): for a non-empty file with fewer terminators than the table
has slots, the backward scan reaches position 0 having counted one line per
terminator, and `get_last_lines` then reads one additional line starting at
position 0 into the next slot and counts it, whether or not the first byte of
the file is a terminator that the scan consumed. -/
theorem extra_line_at_position_zero (file : List Nat) (N : Nat) (hN : N < 2 ^ 31)
    (hne : file ≠ []) (hfew : file.count NL < N) :
    (scan file N file.length (tail_init (zero_table N) N)).1 = 0 ∧
    (scan file N file.length (tail_init (zero_table N) N)).2.line_count = file.count NL ∧
    (get_last_lines file (zero_table N) N).line_count = file.count NL + 1 ∧
    (get_last_lines file (zero_table N) N).lines.get? (N - 1 - file.count NL) =
      some (slot_of ((first_record file).take (MAX_LINE_LENGTH - 1))) ∧
    (N - 1 - file.count NL) ∈ (get_last_lines file (zero_table N) N).stores := by
  have hN32 : N < 2 ^ 32 := by omega
  have hL := line_starts_length file
  have hfit : (line_starts file file.length).length < N := by rw [hL]; exact hfew
  obtain ⟨h1, h2, -, h4, -, -, -⟩ :=
    scan_spec file N hN32 file.length N [] (u32_pred N) [] (by simp)
      (fun h => u32_pred_of_pos h hN32)
  rw [← tail_init_eq] at h1 h2 h4
  have hnone : (line_starts file file.length).get? N = none :=
    List.get?_eq_none.2 (Nat.le_of_lt hfit)
  rw [hnone] at h1
  simp only [List.length_nil, Nat.zero_add, Nat.min_eq_right (Nat.le_of_lt hfit)] at h2
  obtain ⟨g1, g2, -⟩ := get_last_lines_fits file N hN32 hfit
  refine ⟨h1, by rw [h2, hL], by rw [g1, hL], ?_, ?_⟩
  · rw [g2, hL, List.get?_eq_getElem?, List.getElem?_append_right (by simp)]
    simp [slot_from_eq]
  · unfold get_last_lines
    simp only [h1, if_true, read_line, if_neg hne]
    rw [h4 hfit, hL]
    simp
    right
    omega

theorem extra_line_at_position_zero_witness :
    (get_last_lines [10, 98] (zero_table 3) 3).line_count = ([10, 98] : List Nat).count NL + 1 ∧
    (get_last_lines [97, 10, 98] (zero_table 3) 3).line_count
      = ([97, 10, 98] : List Nat).count NL + 1 :=
  ⟨(extra_line_at_position_zero [10, 98] 3 (by decide) (by decide) (by decide)).2.2.1,
   (extra_line_at_position_zero [97, 10, 98] 3 (by decide) (by decide) (by decide)).2.2.1⟩

/-- C14: for fixed thresholds the status does not go down when the count
goes up: `m1 ≤ m2` gives `status m1 w c ≤ status m2 w c` (the order of the two
thresholds is not needed for this). -/
theorem status_monotone (m1 m2 w c : Nat) (h : m1 ≤ m2) :
    status m1 w c ≤ status m2 w c := by
  unfold status CRITICAL WARNING OK
  split_ifs <;> omega

theorem status_monotone_witness :
    status 2 3 5 ≤ status 4 3 5 ∧ status 4 3 5 ≤ status 7 3 5 :=
  ⟨status_monotone 2 4 3 5 (by decide), status_monotone 4 7 3 5 (by decide)⟩

theorem to_ushort_congr (x y : Int) (h : y = x % 65536) : to_ushort y = to_ushort x := by
  unfold to_ushort
  rw [h, Int.emod_emod_of_dvd x (dvd_refl _)]

/-- C15: the thresholds are stored modulo `65536`: when the argument strings
`sw2`, `sc2` carry the values of `sw`, `sc` reduced modulo `65536`, `parse_opt`
leaves the same structure, so `main` gives the same result (exit code and
count); the stored threshold is the supplied value modulo `65536`, and it is
the supplied value itself when that lies in `0 .. 65535`. -/
theorem thresholds_modulo (a : arguments) (sw sc sw2 sc2 : List Nat)
    (hw : atoi sw2 = atoi sw % 65536) (hc : atoi sc2 = atoi sc % 65536) :
    parse_opt 119 sw2 a = parse_opt 119 sw a ∧
    parse_opt 99 sc2 a = parse_opt 99 sc a ∧
    (∀ (fopen : List Nat → Option (List Nat)) (a1 a2 b1 b2 : arguments),
      parse_opt 119 sw a = some a1 → parse_opt 99 sc a1 = some a2 →
      parse_opt 119 sw2 a = some b1 → parse_opt 99 sc2 b1 = some b2 →
        main b2 fopen = main a2 fopen) ∧
    (∃ a1, parse_opt 119 sw a = some a1 ∧ (a1.warning_threshold : Int) = atoi sw % 65536 ∧
      a1.critical_threshold = a.critical_threshold) ∧
    (∃ a1, parse_opt 99 sc a = some a1 ∧ (a1.critical_threshold : Int) = atoi sc % 65536 ∧
      a1.warning_threshold = a.warning_threshold) ∧
    (0 ≤ atoi sw → atoi sw < 65536 →
      ∃ a1, parse_opt 119 sw a = some a1 ∧ (a1.warning_threshold : Int) = atoi sw) ∧
    (0 ≤ atoi sc → atoi sc < 65536 →
      ∃ a1, parse_opt 99 sc a = some a1 ∧ (a1.critical_threshold : Int) = atoi sc) := by
  have hmod : ∀ x : Int, ((to_ushort x : Nat) : Int) = x % 65536 := by
    intro x
    unfold to_ushort
    exact Int.toNat_of_nonneg (Int.emod_nonneg x (by decide))
  have hpw : ∀ (s : List Nat) (b : arguments), parse_opt 119 s b =
      some { b with warning_threshold := to_ushort (atoi s), warning_set := true } := by
    intro s b; simp [parse_opt]
  have hpc : ∀ (s : List Nat) (b : arguments), parse_opt 99 s b =
      some { b with critical_threshold := to_ushort (atoi s), critical_set := true } := by
    intro s b; simp [parse_opt]
  have ew := to_ushort_congr (atoi sw) (atoi sw2) hw
  have ec := to_ushort_congr (atoi sc) (atoi sc2) hc
  refine ⟨by rw [hpw, hpw, ew], by rw [hpc, hpc, ec], ?_, ?_, ?_, ?_, ?_⟩
  · intro fopen a1 a2 b1 b2 h1 h2 h3 h4
    rw [hpw] at h1 h3
    cases h1
    cases h3
    rw [hpc] at h2 h4
    cases h2
    cases h4
    rw [ew, ec]
  · exact ⟨_, hpw sw a, hmod _, rfl⟩
  · exact ⟨_, hpc sc a, hmod _, rfl⟩
  · intro h0 h1
    exact ⟨_, hpw sw a, by rw [hmod]; exact Int.emod_eq_of_lt h0 h1⟩
  · intro h0 h1
    exact ⟨_, hpc sc a, by rw [hmod]; exact Int.emod_eq_of_lt h0 h1⟩

theorem thresholds_modulo_witness :
    atoi (ascii "65537") = 65537 ∧ atoi (ascii "1") = 1 ∧
    atoi (ascii "-1") = -1 ∧ atoi (ascii "65535") = 65535 ∧
    parse_opt 119 (ascii "1") args_default = parse_opt 119 (ascii "65537") args_default ∧
    parse_opt 99 (ascii "65535") args_default = parse_opt 99 (ascii "-1") args_default :=
  ⟨by decide, by decide, by decide, by decide,
    (thresholds_modulo args_default (ascii "65537") (ascii "-1") (ascii "1") (ascii "65535")
      (by decide) (by decide)).1,
    (thresholds_modulo args_default (ascii "65537") (ascii "-1") (ascii "1") (ascii "65535")
      (by decide) (by decide)).2.1⟩

end CheckString
